import Mathlib

/-!
Verification of the luxdb durability-and-concurrency core.

This file gives a shallow embedding, in Lean 4, of the parts of the
luxdb repository that the frozen claims talk about:

* `src/storage/Lock.ts` — the `Mutex` class (binary lock plus FIFO wait
  queue with per-waiter timeout);
* `src/storage/WAL.ts` — the write-ahead log (`log`, `readLog`,
  `replay`, `checkpoint`, `getSize`, `needsCheckpoint`);
* `src/lib/Transaction.ts` — the transaction manager (snapshot at
  construction, staged operations, `commit`, `rollback`);
* `src/lib/LuxDB.ts` and `src/lib/config.ts` — the database façade
  (configuration merging with defaults, construction, `insert`).

Records are modelled as ordered association lists of string keys to a
small JSON-like value type; the in-memory table is a list of records.
`JSON.stringify`/`JSON.parse` round-trips of such values are modelled
as the identity, so a transaction snapshot is stored as the table value
itself.  Asynchronous effects are modelled by explicit state passing:
the shared table, the number of `releaseLock` invocations, and the
result of the fallible persistence callback are threaded explicitly.
-/

/-- JSON-like field values stored in a record. -/
inductive Value where
  | str (s : String)
  | num (n : Int)
  | boolean (b : Bool)
  | null
deriving DecidableEq

/-- A record is an ordered association list of named fields, modelling a
plain JS object literal. -/
abbrev Record := List (String × Value)

/-- The in-memory table: an ordered sequence of records. -/
abbrev Table := List Record

/-- Field lookup on a record (first occurrence of the key wins, as for a
JS object whose keys are unique). -/
def getField (r : Record) (k : String) : Option Value :=
  (r.find? (fun kv => kv.1 == k)).map (fun kv => kv.2)

/-- Whether a record has a field named `k`. -/
def hasFieldB (r : Record) (k : String) : Bool :=
  r.any (fun kv => kv.1 == k)

/-- Shallow merge, part 1: one field of `a` as the JS object spread
`\x7b...a, ...b\x7d` produces it — the key keeps its position but takes the
value from `b` when `b` also has the key. -/
def overrideField (b : Record) (kv : String × Value) : String × Value :=
  match b.find? (fun kv2 => kv2.1 == kv.1) with
  | some kv2 => (kv.1, kv2.2)
  | none => kv

/-- Shallow merge, part 2: the whole spread — the keys of `a` (each
possibly overridden by `b`) followed by the keys of `b` absent from
`a`. -/
def mergeRecord (a b : Record) : Record :=
  a.map (overrideField b)
  ++ b.filter (fun kv2 => !(a.any (fun kv => kv.1 == kv2.1)))

/-- Errors of the repository, from `src/customError/Errors.ts`.
`databaseError` carries the message and the `code`;
`transactionError` carries the message and (in `details.originalError`)
an optional underlying cause; `lockError` carries the message. -/
inductive DBError where
  | databaseError (message : String) (code : String)
  | transactionError (message : String) (cause : Option DBError)
  | lockError (message : String)

/-- The `message` property of an error. -/
def DBError.message : DBError → String
  | .databaseError m _ => m
  | .transactionError m _ => m
  | .lockError m => m

/-! ## Transaction manager (`src/lib/Transaction.ts`)

A staged operation is one of the closures pushed by
`Transaction.insert`, `Transaction.update`, `Transaction.delete`.  Each
closure captures the items / predicate / update object it was staged
with and, when run during `commit`, reads and writes the live table. -/

/-- A staged operation of a transaction. -/
inductive TxOp where
  /-- `insert`: `data.push(...items)` (a single item is wrapped into a
  one-element array by the source before staging). -/
  | insert (items : List Record)
  /-- `update`: every record matching the predicate is replaced in place
  by the spread `\x7b...data[i], ...updates\x7d`. -/
  | update (pred : Record → Bool) (updates : Record)
  /-- `delete`: `setData(data.filter(item => !predicate(item)))`. -/
  | delete (pred : Record → Bool)

/-- Running one staged closure against the live table. -/
def applyOp (data : Table) : TxOp → Table
  | .insert items => data ++ items
  | .update pred updates =>
      data.map (fun r => if pred r then mergeRecord r updates else r)
  | .delete pred => data.filter (fun r => !pred r)

/-- The private state of a `Transaction` object: the snapshot captured
at construction (the source stores `JSON.stringify(this.getData())` and
parses it back on rollback; the round-trip is modelled as the table
value itself), the list of staged operations, and the two finalisation
flags. -/
structure TxState where
  snapshot : Table
  operations : List TxOp
  committed : Bool
  rolledBack : Bool

/-- The `Transaction` constructor: captures the current table as the
snapshot, with no staged operations and both flags false. -/
def Transaction.begin (data : Table) : TxState :=
  { snapshot := data, operations := [], committed := false, rolledBack := false }

/-- The guard `ensureNotFinalized`: throws `TransactionError` if the
transaction was already committed or already rolled back. -/
def Transaction.ensureNotFinalized (tx : TxState) : Except DBError Unit :=
  if tx.committed then
    .error (.transactionError "Transaction already committed" none)
  else if tx.rolledBack then
    .error (.transactionError "Transaction already rolled back" none)
  else
    .ok ()

/-- `Transaction.insert`: guard, then stage a push of the items. -/
def Transaction.stageInsert (tx : TxState) (items : List Record) : Except DBError TxState :=
  match Transaction.ensureNotFinalized tx with
  | .error e => .error e
  | .ok _ => .ok { tx with operations := tx.operations ++ [TxOp.insert items] }

/-- `Transaction.update`: guard, then stage an update closure. -/
def Transaction.stageUpdate (tx : TxState) (pred : Record → Bool) (updates : Record) :
    Except DBError TxState :=
  match Transaction.ensureNotFinalized tx with
  | .error e => .error e
  | .ok _ => .ok { tx with operations := tx.operations ++ [TxOp.update pred updates] }

/-- `Transaction.delete`: guard, then stage a delete closure. -/
def Transaction.stageDelete (tx : TxState) (pred : Record → Bool) : Except DBError TxState :=
  match Transaction.ensureNotFinalized tx with
  | .error e => .error e
  | .ok _ => .ok { tx with operations := tx.operations ++ [TxOp.delete pred] }

/-- Result of `Transaction.rollback` run against a live table: the new
transaction state, the new live table, and the number of `releaseLock`
invocations performed by this call. -/
def Transaction.rollbackFn (tx : TxState) (data : Table) : TxState × Table × Nat :=
  if tx.rolledBack then
    (tx, data, 0)
  else
    ({ tx with rolledBack := true, operations := [] }, tx.snapshot, 1)

/-- Outcome of a `Transaction.commit` call. -/
structure TxOutcome where
  tx : TxState
  table : Table
  releases : Nat
  result : Except DBError Unit

/-- `Transaction.commit` run against a live table, with the outcome of
the `persist` callback supplied as `persistResult`.  Faithful to the
source: the `ensureNotFinalized` guard runs before the `try` block (so
a finalized transaction throws without releasing); inside the `try` the
staged operations are applied in order and `persist` is awaited; on
failure the `catch` block awaits `rollback()` (which itself releases
the lock once) and rethrows a `TransactionError` wrapping the cause;
the `finally` block then releases the lock (again, on the failure
path). -/
def Transaction.commitFn (tx : TxState) (data : Table)
    (persistResult : Except DBError Unit) : TxOutcome :=
  match Transaction.ensureNotFinalized tx with
  | .error e => { tx := tx, table := data, releases := 0, result := .error e }
  | .ok _ =>
    let applied := tx.operations.foldl applyOp data
    match persistResult with
    | .ok _ =>
      { tx := { tx with committed := true }, table := applied,
        releases := 1, result := .ok () }
    | .error cause =>
      let rb := Transaction.rollbackFn tx applied
      { tx := rb.1, table := rb.2.1, releases := rb.2.2 + 1,
        result := .error (.transactionError
          ("Transaction commit failed: " ++ cause.message) (some cause)) }

/-! ## Mutex (`src/storage/Lock.ts`)

The lock state is the `locked` flag together with the FIFO wait queue.
Waiters are identified by natural numbers; the queued callback of the
source (`() => \x7b clearTimeout(timer); resolve(); \x7d`) is represented by
the waiter identifier it would resume. -/

/-- State of the `Mutex`: the `locked` flag and the wait queue. -/
structure MutexState where
  locked : Bool
  queue : List Nat
deriving DecidableEq

/-- The hard-coded timeout of the source: `private timeout = 5000`. -/
def Mutex.timeoutMs : Nat := 5000

/-- `Mutex.acquire` by waiter `w`: if free, the lock is taken
immediately (`true` in the first component); otherwise `w` is appended
to the wait queue and suspends. -/
def Mutex.acquire (s : MutexState) (w : Nat) : Bool × MutexState :=
  if !s.locked then
    (true, { s with locked := true })
  else
    (false, { s with queue := s.queue ++ [w] })

/-- `Mutex.release`: shift the queue; if a waiter was dequeued it is
granted the lock (returned in the first component) and `locked` is left
untouched; only with an empty queue is `locked` set to false. -/
def Mutex.release (s : MutexState) : Option Nat × MutexState :=
  match s.queue with
  | next :: rest => (some next, { s with queue := rest })
  | [] => (none, { s with locked := false })

/-- Function-object identity of the source: what `acquire` pushes onto
the queue is the wrapper closure `() => \x7b clearTimeout(timer);
resolve(); \x7d`, while the timer callback hands `indexOf` the bare
`resolve` captured from the promise executor.  JS `indexOf` compares by
strict object identity, and the wrapper and `resolve` are distinct
function objects, so the per-element comparison is false for every
queue element (queue elements are wrappers, tagged here by the waiter
they resume; the search argument is the resolve of waiter
`resolveOf`). -/
def resolveMatchesWrapper (_resolveOf _wrapperOf : Nat) : Bool := false

/-- The timer callback of a queued `acquire` by waiter `w` firing:
`const index = this.queue.indexOf(resolve)` looks for the bare
`resolve` among the queued wrapper closures (`findIdx?` with the
identity comparison above, `none` standing for `-1`); only when found
(`index > -1`) is the element spliced out.  Afterwards the promise of
`w` (and only of `w`) is rejected with
`LockError("Lock acquisition timeout")`, returned here as the error
value.  The `locked` flag is not touched. -/
def Mutex.timeoutFire (s : MutexState) (w : Nat) : MutexState × DBError :=
  match s.queue.findIdx? (fun q => resolveMatchesWrapper w q) with
  | some i => ({ s with queue := s.queue.eraseIdx i },
      DBError.lockError "Lock acquisition timeout")
  | none => (s, DBError.lockError "Lock acquisition timeout")

/-- `Mutex.forceRelease`: unconditionally clear the flag and the queue. -/
def Mutex.forceRelease (_s : MutexState) : MutexState :=
  { locked := false, queue := [] }

/-- `Mutex.getQueueSize`. -/
def Mutex.getQueueSize (s : MutexState) : Nat := s.queue.length

/-- Folding a sequence of `acquire` calls (all issued while the lock is
held, in this order) over a mutex state. -/
def Mutex.acquireAll (s : MutexState) (ws : List Nat) : MutexState :=
  ws.foldl (fun st w => (Mutex.acquire st w).2) s

/-- Repeatedly calling `release` `n` times, collecting the sequence of
waiters that were granted the lock, in order. -/
def Mutex.drainAll : MutexState → Nat → List Nat × MutexState
  | s, 0 => ([], s)
  | s, n + 1 =>
    let r := Mutex.release s
    let d := Mutex.drainAll r.2 n
    (r.1.toList ++ d.1, d.2)

/-! ## Write-ahead log (`src/storage/WAL.ts`)

A log entry mirrors the `LogEntry` interface; the log file is modelled
by whether it exists plus the sequence of entries serialized one per
line (`JSON.stringify(entry) + newline` on append, parsed back by
`readLog`; the serialization round-trip is modelled as the identity). -/

/-- The `OperationType` enum. -/
inductive OperationType where
  | INSERT
  | UPDATE
  | DELETE
  | BEGIN
  | COMMIT
  | ROLLBACK
deriving DecidableEq

/-- The `LogEntry` interface. -/
structure LogEntry where
  timestamp : Nat
  type : OperationType
  data : Option Value
  transactionId : Option String
deriving DecidableEq

/-- State of the WAL file on disk. -/
structure WALState where
  fileExists : Bool
  lines : List LogEntry
deriving DecidableEq

/-- A WAL whose file has not been created yet (the constructor only
computes the path). -/
def WAL.init : WALState := { fileExists := false, lines := [] }

/-- `WAL.readLog`: empty when the file is absent, otherwise the parsed
entries. -/
def WAL.readLog (s : WALState) : List LogEntry :=
  if s.fileExists then s.lines else []

/-- `WAL.log`: `appendFile` appends one serialized entry, creating the
file when absent. -/
def WAL.log (s : WALState) (e : LogEntry) : WALState :=
  { fileExists := true, lines := WAL.readLog s ++ [e] }

/-- `WAL.checkpoint`: overwrite the file with the empty string when it
exists, otherwise do nothing. -/
def WAL.checkpoint (s : WALState) : WALState :=
  if s.fileExists then { fileExists := true, lines := [] } else s

/-- `WAL.getSize`: the number of entries `readLog` returns. -/
def WAL.getSize (s : WALState) : Nat := (WAL.readLog s).length

/-- The hard-coded `private checkpointThreshold = 100` of the source. -/
def WAL.checkpointThreshold : Nat := 100

/-- `WAL.needsCheckpoint`: `size >= this.checkpointThreshold`. -/
def WAL.needsCheckpoint (s : WALState) : Bool :=
  WAL.checkpointThreshold ≤ WAL.getSize s

/-- `WAL.destroy`: delete the file when it exists. -/
def WAL.destroy (_s : WALState) : WALState := WAL.init

/-- Whether an operation type is a transaction lifecycle marker. -/
def isMarkerB (t : OperationType) : Bool :=
  t == OperationType.BEGIN || t == OperationType.COMMIT || t == OperationType.ROLLBACK

/-- Whether an operation type is a terminal marker. -/
def isTerminalB (t : OperationType) : Bool :=
  t == OperationType.COMMIT || t == OperationType.ROLLBACK

/-! The `transactions` accumulator of `WAL.replay` is a JS `Map` keyed
by transaction identifier: an insertion-ordered association list where
`set` on a present key updates the value in place and `set` on an
absent key appends at the end. -/

/-- Insertion-ordered map from transaction identifiers to buffered
entries, modelling the JS `Map` of `WAL.replay`. -/
abbrev TxMap := List (String × List LogEntry)

/-- `Map.has`. -/
def mapHas (m : TxMap) (k : String) : Bool := m.any (fun p => p.1 == k)

/-- `Map.get` (as an option). -/
def mapGet (m : TxMap) (k : String) : Option (List LogEntry) :=
  (m.find? (fun p => p.1 == k)).map (fun p => p.2)

/-- `Map.set`: update in place when the key is present, append
otherwise. -/
def mapSet (m : TxMap) (k : String) (v : List LogEntry) : TxMap :=
  if mapHas m k then m.map (fun p => if p.1 == k then (k, v) else p)
  else m ++ [(k, v)]

/-- `Map.delete`. -/
def mapDelete (m : TxMap) (k : String) : TxMap :=
  m.filter (fun p => !(p.1 == k))

/-- The loop of `WAL.replay` over the remaining entries, carrying the
`uncommitted` list and the `transactions` map; at the end the
uncommitted entries are returned followed by the buffered operations of
every transaction still in the map, in map order. -/
def replayAux (uncommitted : List LogEntry) (transactions : TxMap) :
    List LogEntry → List LogEntry
  | [] => uncommitted ++ transactions.flatMap (fun p => p.2)
  | e :: rest =>
    match e.transactionId with
    | some id =>
      if e.type == OperationType.BEGIN then
        replayAux uncommitted (mapSet transactions id []) rest
      else if isTerminalB e.type then
        replayAux uncommitted (mapDelete transactions id) rest
      else
        replayAux uncommitted
          (mapSet transactions id ((mapGet transactions id).getD [] ++ [e])) rest
    | none =>
      if !isMarkerB e.type then
        replayAux (uncommitted ++ [e]) transactions rest
      else
        replayAux uncommitted transactions rest

/-- `WAL.replay` on a sequence of log entries. -/
def replayEntries (entries : List LogEntry) : List LogEntry :=
  replayAux [] [] entries

/-- `WAL.replay` on a WAL state: replay of `readLog`. -/
def WAL.replay (s : WALState) : List LogEntry :=
  replayEntries (WAL.readLog s)

/-! ## Spec-side description of `replay` (claim C4)

The following definitions are written from the words of the claim and
of §4.2 of the spec, to be compared with `replayEntries` above: the
non-transactional non-marker entries in log order, followed by the
buffered operations of every transaction identifier that never reached
a terminal marker, grouped per identifier (first-occurrence order) with
log order preserved inside each group. -/

/-- First-occurrence deduplication of a list of identifiers. -/
def firstDedup : List String → List String
  | [] => []
  | x :: xs => x :: (firstDedup xs).filter (fun y => !(y == x))

/-- Spec: the entries that carry no transaction identifier and are not
lifecycle markers, in log order. -/
def nontxUncommitted (l : List LogEntry) : List LogEntry :=
  l.filter (fun e => e.transactionId == none && !isMarkerB e.type)

/-- Spec: whether a transaction identifier reaches a terminal
(`COMMIT`/`ROLLBACK`) marker somewhere in the log. -/
def hasTerminal (l : List LogEntry) (id : String) : Bool :=
  l.any (fun e => e.transactionId == some id && isTerminalB e.type)

/-- Spec: whether the log has a `BEGIN` marker for an identifier. -/
def hasBegin (l : List LogEntry) (id : String) : Bool :=
  l.any (fun e => e.transactionId == some id && e.type == OperationType.BEGIN)

/-- Spec: the buffered (non-marker) operation entries of a transaction
identifier, in log order. -/
def opsOf (l : List LogEntry) (id : String) : List LogEntry :=
  l.filter (fun e => e.transactionId == some id && !isMarkerB e.type)

/-- Spec: all transaction identifiers of the log, in first-occurrence
order. -/
def txIds (l : List LogEntry) : List String :=
  firstDedup (l.filterMap (fun e => e.transactionId))

/-- Spec: the identifiers that never reach a terminal marker. -/
def openTxIds (l : List LogEntry) : List String :=
  (txIds l).filter (fun id => !hasTerminal l id)

/-- Spec: the replay result described by the claim — non-transactional
uncommitted entries first, then the buffered operations of each
still-open transaction. -/
def replaySpec (l : List LogEntry) : List LogEntry :=
  nontxUncommitted l ++ (openTxIds l).flatMap (opsOf l)

/-- Well-formedness of a log (the hypothesis of the amended claim C4):
reading the log left to right, an entry tagged with a transaction
identifier is never preceded by a terminal marker for that identifier,
and a `BEGIN` for an identifier is never preceded by a non-marker entry
for that identifier. -/
def okAfterB (e e2 : LogEntry) : Bool :=
  match e.transactionId, e2.transactionId with
  | some id, some id2 =>
    if id == id2 then
      !isTerminalB e.type &&
        (!(e2.type == OperationType.BEGIN) || e.type == OperationType.BEGIN)
    else true
  | _, _ => true

/-- Boolean well-formedness of a whole log: every entry is compatible
with every later entry. -/
def wfLog : List LogEntry → Bool
  | [] => true
  | e :: rest => rest.all (okAfterB e) && wfLog rest

/-- Generalisation of the still-open part of `replaySpec` to a run of
`replayAux` that starts from the map `m`: the contribution of the
identifiers already buffered in `m` — each is dropped when the
remaining log terminates it, and otherwise contributes its buffer
followed by its remaining operation entries. -/
def openContrib (m : TxMap) (l : List LogEntry) : List LogEntry :=
  m.flatMap (fun p => if hasTerminal l p.1 then [] else p.2 ++ opsOf l p.1)

/-- Generalisation, part 2: the contribution of identifiers not yet in
`m` — those of the remaining log that are never terminated, in
first-occurrence order, each contributing its operation entries. -/
def newContrib (m : TxMap) (l : List LogEntry) : List LogEntry :=
  ((txIds l).filter (fun id => !mapHas m id && !hasTerminal l id)).flatMap (opsOf l)

/-! ## Database façade (`src/lib/LuxDB.ts` and `src/lib/config.ts`) -/

/-- The user-supplied configuration fields consumed by the core
(`LuxDBConfig`); `none` models an absent field. -/
structure LuxDBUserConfig where
  enableWAL : Option Bool
  walCheckpointThreshold : Option Nat
  lockTimeout : Option Nat

/-- A configuration with every core field resolved. -/
structure LuxDBResolvedConfig where
  enableWAL : Bool
  walCheckpointThreshold : Nat
  lockTimeout : Nat

/-- `mergeConfig`: spread of `DEFAULT_CONFIG` under the user config —
absent fields take the defaults `enableWAL = true`,
`walCheckpointThreshold = 100`, `lockTimeout = 5000`. -/
def mergeConfig (c : LuxDBUserConfig) : LuxDBResolvedConfig :=
  { enableWAL := c.enableWAL.getD true,
    walCheckpointThreshold := c.walCheckpointThreshold.getD 100,
    lockTimeout := c.lockTimeout.getD 5000 }

/-- State of a `LuxDB` instance: the in-memory table, the optional WAL
instance (`this.wal`), the mutex, and the resolved configuration. -/
structure LuxDBState where
  data : Table
  wal : Option WALState
  lock : MutexState
  config : LuxDBResolvedConfig

/-- The `LuxDB` constructor: merge the configuration and create the
`FileStore`; the source reads `if (!this.config.enableWAL) \x7b this.wal =
new WAL<T>(filePath); \x7d`, so a WAL instance exists exactly when
`enableWAL` is false. -/
def LuxDB.mkDB (cfg : LuxDBUserConfig) : LuxDBState :=
  let rc := mergeConfig cfg
  { data := [],
    wal := if !rc.enableWAL then some WAL.init else none,
    lock := { locked := false, queue := [] },
    config := rc }

/-- `LuxDB.insert` (direct, non-transactional): acquire the mutex, push
the items onto the in-memory table, persist the full snapshot through
the `FileStore`, release the mutex.  Neither the method body nor
`FileStore.write` mentions `this.wal`, so the WAL field is untouched. -/
def LuxDB.insert (db : LuxDBState) (items : List Record) : LuxDBState :=
  { db with data := db.data ++ items }

/-! ## Sample data for witnesses and counterexamples -/

/-- A sample record. -/
def sampleRecord : Record := [("id", Value.num 1), ("status", Value.str "active")]

/-- A sample one-record table. -/
def sampleTable : Table := [sampleRecord]

/-- A sample persistence failure (`FileStore.write` on a full disk). -/
def sampleErr : DBError :=
  DBError.databaseError "No space left on device for file: db/users.json" "ENOSPC"

/-- A sample non-transactional log entry. -/
def sampleEntry : LogEntry :=
  { timestamp := 0, type := OperationType.INSERT,
    data := some (Value.num 1), transactionId := none }

/-- The user configuration with every core field absent, so that every
default applies (`enableWAL = true` among them). -/
def cfgAllDefaults : LuxDBUserConfig :=
  { enableWAL := none, walCheckpointThreshold := none, lockTimeout := none }

/-- A transaction begun on table `t0` after staging the operations
`ops`: the state `Transaction.begin t0` reaches once each staging call
has pushed its closure. -/
def txWith (t0 : Table) (ops : List TxOp) : TxState :=
  { Transaction.begin t0 with operations := ops }

/-- A predicate used in witnesses: whether the record has a `status`
field. -/
def statusPred : Record → Bool := fun r => hasFieldB r "status"

/-- A record matching `statusPred`. -/
def recordWithStatus : Record := [("id", Value.num 1), ("status", Value.str "old")]

/-- A record not matching `statusPred`. -/
def recordNoStatus : Record := [("id", Value.num 2)]

/-- A two-record table whose first record matches `statusPred`. -/
def tableForUpdate : Table := [recordWithStatus, recordNoStatus]

/-- A partial update: overrides `status`, adds `flag`, says nothing
about `id`. -/
def statusUpdates : Record := [("status", Value.str "new"), ("flag", Value.boolean true)]

/-- Log entries of transaction `tx-1`, used for the replay claims. -/
def entryBeginTx : LogEntry :=
  { timestamp := 0, type := OperationType.BEGIN, data := none, transactionId := some "tx-1" }

/-- First buffered insert of `tx-1`. -/
def entryInsertA : LogEntry :=
  { timestamp := 1, type := OperationType.INSERT,
    data := some (Value.num 1), transactionId := some "tx-1" }

/-- Second buffered insert of `tx-1`. -/
def entryInsertB : LogEntry :=
  { timestamp := 2, type := OperationType.INSERT,
    data := some (Value.num 2), transactionId := some "tx-1" }

/-- Terminal commit marker of `tx-1`. -/
def entryCommitTx : LogEntry :=
  { timestamp := 3, type := OperationType.COMMIT, data := none, transactionId := some "tx-1" }

/-- An entry of `tx-1` logged after the commit marker. -/
def entryLate : LogEntry :=
  { timestamp := 4, type := OperationType.INSERT,
    data := some (Value.num 3), transactionId := some "tx-1" }

/-- Staging really does produce `txWith` states: a successful
`Transaction.insert` call on `txWith t0 ops` appends one staged
operation. -/
theorem stageInsert_txWith (t0 : Table) (ops : List TxOp) (items : List Record) :
    Transaction.stageInsert (txWith t0 ops) items =
      Except.ok (txWith t0 (ops ++ [TxOp.insert items])) := rfl

/-! ## Mutex lemmas -/

/-- Folding `acquire` calls over a held lock appends the callers to the
wait queue in arrival order and keeps the lock held. -/
theorem Mutex.acquireAll_held (ws : List Nat) : ∀ q : List Nat,
    Mutex.acquireAll ⟨true, q⟩ ws = ⟨true, q ++ ws⟩ := by
  induction ws with
  | nil => intro q; simp [Mutex.acquireAll]
  | cons w ws ih =>
    intro q
    have h1 : Mutex.acquireAll ⟨true, q⟩ (w :: ws)
        = Mutex.acquireAll ⟨true, q ++ [w]⟩ ws := by
      simp [Mutex.acquireAll, Mutex.acquire]
    rw [h1, ih]
    simp

/-- Releasing a held lock once per queued waiter grants the waiters in
queue order. -/
theorem Mutex.drainAll_held (ws : List Nat) :
    (Mutex.drainAll ⟨true, ws⟩ ws.length).1 = ws := by
  induction ws with
  | nil => rfl
  | cons w ws ih =>
    show (Mutex.drainAll ⟨true, w :: ws⟩ (ws.length + 1)).1 = w :: ws
    simp [Mutex.drainAll, Mutex.release, ih]

/-! ## WAL lemmas -/

/-- Checkpointing leaves a log whose `readLog` is empty, whatever the
prior state. -/
theorem WAL.readLog_checkpoint (u : WALState) :
    WAL.readLog (WAL.checkpoint u) = [] := by
  cases u with
  | mk fe ls => cases fe <;> simp [WAL.checkpoint, WAL.readLog]

/-- Appending a sequence of entries appends them to `readLog`. -/
theorem WAL.readLog_foldl_log (es : List LogEntry) : ∀ s : WALState,
    WAL.readLog (es.foldl WAL.log s) = WAL.readLog s ++ es := by
  induction es with
  | nil => intro s; simp
  | cons e es ih =>
    intro s
    have h : WAL.readLog (WAL.log s e) = WAL.readLog s ++ [e] := by
      simp [WAL.log, WAL.readLog]
    simp [ih, h]

/-! ## Claim theorems -/

/-- C1 (code bug evidence): a `commit()` whose `persist` callback fails
invokes the lock-release callback twice — once inside the automatic
`rollback()` of the `catch` block and once more in the `finally` block —
while a successful `commit()` releases exactly once.  This contradicts
the claim (and the spec invariant) that the release callback is invoked
exactly once regardless of outcome. -/
theorem luxdb_c1_commit_releases_twice_on_failed_persist
    (t0 : Table) (ops : List TxOp) (c : DBError) :
    (Transaction.commitFn (txWith t0 ops) t0 (Except.error c)).releases = 2
    ∧ (Transaction.commitFn (txWith t0 ops) t0 (Except.ok ())).releases = 1
    ∧ (Transaction.commitFn (Transaction.begin sampleTable) sampleTable
        (Except.error sampleErr)).releases = 2 :=
  ⟨rfl, rfl, rfl⟩

/-- C2: when the persist callback fails during `commit()`, the live
table handed back to the caller equals the pre-transaction snapshot
captured at begin, and the surfaced error is a `TransactionError`
`"Transaction commit failed: ..."` carrying the underlying persistence
error as its cause (`details.originalError`). -/
theorem luxdb_c2_commit_failure_restores_snapshot_and_wraps_cause
    (t0 : Table) (ops : List TxOp) (c : DBError) :
    (Transaction.commitFn (txWith t0 ops) t0 (Except.error c)).table = t0
    ∧ (Transaction.commitFn (txWith t0 ops) t0 (Except.error c)).result =
        Except.error (DBError.transactionError
          ("Transaction commit failed: " ++ c.message) (some c)) :=
  ⟨rfl, rfl⟩

/-- C3 (code bug evidence): with the default configuration
(`enableWAL` defaults to true) the constructor creates no WAL instance
at all — the source guards the construction with
`if (!this.config.enableWAL)` — and a direct `insert` never appends any
entry to a WAL: the `wal` field of the database state is untouched by
`insert` for every state.  This contradicts the claim that every direct
mutation appends an entry to the Durable Log before the mutex is
released. -/
theorem luxdb_c3_direct_insert_appends_no_wal_entry :
    (LuxDB.mkDB cfgAllDefaults).wal = none
    ∧ (mergeConfig cfgAllDefaults).enableWAL = true
    ∧ (∀ (db : LuxDBState) (items : List Record),
        (LuxDB.insert db items).wal = db.wal)
    ∧ (LuxDB.insert (LuxDB.mkDB cfgAllDefaults) [sampleRecord]).wal = none :=
  ⟨rfl, rfl, fun _ _ => rfl, rfl⟩

/-- C5: acquire calls issued while the lock is held are queued in
arrival order and granted strictly FIFO; a `release()` with a non-empty
queue hands the lock to the head waiter directly, leaving the `locked`
flag untouched (never passing through a free state). -/
theorem luxdb_c5_mutex_fifo_direct_handoff (s : MutexState) (ws : List Nat)
    (hheld : s.locked = true) :
    Mutex.acquireAll s ws = ⟨true, s.queue ++ ws⟩
    ∧ (∀ w rest, s.queue = w :: rest →
        Mutex.release s = (some w, ⟨s.locked, rest⟩))
    ∧ (Mutex.drainAll ⟨true, ws⟩ ws.length).1 = ws := by
  cases s with
  | mk lk q =>
    obtain rfl : lk = true := hheld
    refine ⟨Mutex.acquireAll_held ws q, ?_, Mutex.drainAll_held ws⟩
    intro w rest hq
    obtain rfl : q = w :: rest := hq
    rfl

/-- Witness for C5 at a held lock with one queued waiter and two new
acquire calls. -/
theorem luxdb_c5_witness :
    (MutexState.mk true [7]).locked = true
    ∧ (Mutex.acquireAll ⟨true, [7]⟩ [1, 2] = ⟨true, [7] ++ [1, 2]⟩
      ∧ (∀ w rest, (MutexState.mk true [7]).queue = w :: rest →
          Mutex.release ⟨true, [7]⟩ = (some w, ⟨(MutexState.mk true [7]).locked, rest⟩))
      ∧ (Mutex.drainAll ⟨true, [1, 2]⟩ ([1, 2] : List Nat).length).1 = [1, 2]) :=
  ⟨rfl, luxdb_c5_mutex_fifo_direct_handoff ⟨true, [7]⟩ [1, 2] rfl⟩

/-- Helper: `findIdx?` with a predicate that holds nowhere finds
nothing, from any start index. -/
theorem findIdx?_of_false {α : Type} (p : α → Bool) (hp : ∀ x, p x = false) :
    ∀ (l : List α) (i : Nat), l.findIdx? p i = none := by
  intro l
  induction l with
  | nil => intro i; rfl
  | cons x xs ih => intro i; simp [List.findIdx?_cons, hp x, ih]

/-- C7 (code bug evidence): when the timer of a queued `acquire`
fires, the waiter is NOT removed from the queue: `indexOf` is handed
the bare `resolve` while the queue stores the wrapper closures pushed
by `acquire`, so no element matches, the index is `-1` and the splice
never runs — the mutex state is completely unchanged, and only the
rejection with `LockError("Lock acquisition timeout")` reaches the
waiter.  At the concrete failing input — lock held, wait queue
`[4, 5]`, waiter 4 timed out — the next `release()` then grants the
lock to the dead wrapper of waiter 4 (which only resolves an
already-rejected promise) instead of waiter 5, so the timed-out
acquire does consume the grant and does block the waiter behind it,
contradicting the claim that it is removed, consumes no lock and
blocks no other waiter. -/
theorem luxdb_c7_timed_out_waiter_stays_queued :
    (∀ (s : MutexState) (w : Nat),
      Mutex.timeoutFire s w = (s, DBError.lockError "Lock acquisition timeout"))
    ∧ (Mutex.timeoutFire ⟨true, [4, 5]⟩ 4).1.queue = [4, 5]
    ∧ Mutex.release (Mutex.timeoutFire ⟨true, [4, 5]⟩ 4).1
        = (some 4, ⟨true, [5]⟩)
    ∧ Mutex.timeoutMs = 5000 := by
  have h : ∀ (s : MutexState) (w : Nat),
      Mutex.timeoutFire s w = (s, DBError.lockError "Lock acquisition timeout") := by
    intro s w
    simp [Mutex.timeoutFire,
      findIdx?_of_false (fun q => resolveMatchesWrapper w q) (fun _ => rfl)]
  refine ⟨h, ?_, ?_, rfl⟩
  · rw [h ⟨true, [4, 5]⟩ 4]
  · rw [h ⟨true, [4, 5]⟩ 4]
    rfl

/-- C6: `rollback()` on a not-yet-rolled-back transaction restores the
live table to exactly the snapshot captured at construction, whatever
the current (possibly partially mutated) table content is, marks the
transaction rolled back, and releases the lock once. -/
theorem luxdb_c6_rollback_restores_pretransaction_table
    (t0 t : Table) (ops : List TxOp) :
    (Transaction.rollbackFn (txWith t0 ops) t).2.1 = t0
    ∧ (Transaction.rollbackFn (txWith t0 ops) t).1.rolledBack = true
    ∧ (Transaction.rollbackFn (txWith t0 ops) t).2.2 = 1 :=
  ⟨rfl, rfl, rfl⟩

/-- C9: appending at least 100 entries and then checkpointing yields an
empty `readLog`; `needsCheckpoint` reports true exactly when the entry
count has reached the threshold, whose value is 100. -/
theorem luxdb_c9_checkpoint_roundtrip_and_threshold (s t : WALState)
    (es : List LogEntry) (hn : 100 ≤ es.length) :
    WAL.readLog (WAL.checkpoint (es.foldl WAL.log s)) = []
    ∧ WAL.needsCheckpoint (es.foldl WAL.log s) = true
    ∧ (WAL.needsCheckpoint t = true ↔ WAL.checkpointThreshold ≤ (WAL.readLog t).length)
    ∧ WAL.checkpointThreshold = 100 := by
  refine ⟨WAL.readLog_checkpoint _, ?_, ?_, rfl⟩
  · have h := WAL.readLog_foldl_log es s
    simp [WAL.needsCheckpoint, WAL.getSize, h, WAL.checkpointThreshold]
    omega
  · simp [WAL.needsCheckpoint, WAL.getSize]

/-- Witness for C9: one hundred inserts into a fresh WAL. -/
theorem luxdb_c9_witness :
    100 ≤ (List.replicate 100 sampleEntry).length
    ∧ (WAL.readLog (WAL.checkpoint ((List.replicate 100 sampleEntry).foldl WAL.log WAL.init)) = []
      ∧ WAL.needsCheckpoint ((List.replicate 100 sampleEntry).foldl WAL.log WAL.init) = true
      ∧ (WAL.needsCheckpoint WAL.init = true
          ↔ WAL.checkpointThreshold ≤ (WAL.readLog WAL.init).length)
      ∧ WAL.checkpointThreshold = 100) :=
  ⟨by simp, luxdb_c9_checkpoint_roundtrip_and_threshold WAL.init WAL.init
    (List.replicate 100 sampleEntry) (by simp)⟩

/-- C10: after a successful `commit()`, a further `rollback()` call is
not rejected and is not a no-op, because the guard checks only the
`rolledBack` flag: it restores the in-memory table to the snapshot
captured at construction (discarding the committed changes from memory;
`rollback` never invokes the persist callback) and invokes the
lock-release callback a second time (the rollback call releases once on
top of the single release of the successful commit).  The modelled
`rollback` is total — no error value exists on this path, matching the
source body, which cannot throw. -/
theorem luxdb_c10_rollback_after_commit_double_release
    (t0 : Table) (ops : List TxOp) :
    (Transaction.commitFn (txWith t0 ops) t0 (Except.ok ())).result = Except.ok ()
    ∧ (Transaction.commitFn (txWith t0 ops) t0 (Except.ok ())).tx.committed = true
    ∧ (Transaction.commitFn (txWith t0 ops) t0 (Except.ok ())).tx.rolledBack = false
    ∧ (Transaction.commitFn (txWith t0 ops) t0 (Except.ok ())).releases = 1
    ∧ (Transaction.rollbackFn
        (Transaction.commitFn (txWith t0 ops) t0 (Except.ok ())).tx
        (Transaction.commitFn (txWith t0 ops) t0 (Except.ok ())).table).2.1 = t0
    ∧ (Transaction.rollbackFn
        (Transaction.commitFn (txWith t0 ops) t0 (Except.ok ())).tx
        (Transaction.commitFn (txWith t0 ops) t0 (Except.ok ())).table).2.2 = 1
    ∧ (Transaction.rollbackFn
        (Transaction.commitFn (txWith t0 ops) t0 (Except.ok ())).tx
        (Transaction.commitFn (txWith t0 ops) t0 (Except.ok ())).table).1.rolledBack = true :=
  ⟨rfl, rfl, rfl, rfl, rfl, rfl, rfl⟩

/-! ## Shallow-merge lemmas (claim C8) -/

/-- The spread keeps the key of each field of `a`. -/
theorem overrideField_fst (b : Record) (kv : String × Value) :
    (overrideField b kv).1 = kv.1 := by
  unfold overrideField
  cases b.find? (fun kv2 => kv2.1 == kv.1) <;> rfl

/-- Filtering by a predicate implied by the search predicate does not
change the result of `find?`. -/
theorem find?_filter_of_imp {α : Type} (p g : α → Bool)
    (h : ∀ x, p x = true → g x = true) : ∀ l : List α,
    (l.filter g).find? p = l.find? p := by
  intro l
  induction l with
  | nil => rfl
  | cons y l ih =>
    by_cases hp : p y = true
    · simp [List.filter_cons, h y hp, List.find?_cons, hp]
    · by_cases hgy : g y = true
      · simp [List.filter_cons, hgy, List.find?_cons, hp, ih]
      · simp [List.filter_cons, hgy, List.find?_cons, hp, ih]

/-- Lookup after a shallow merge: keys present in the update take the
update's value, all other keys keep the value of the original record. -/
theorem getField_mergeRecord (a b : Record) (k : String) :
    getField (mergeRecord a b) k =
      if hasFieldB b k then getField b k else getField a k := by
  unfold getField mergeRecord
  rw [List.find?_append]
  have hmap : (a.map (overrideField b)).find? (fun kv => kv.1 == k)
      = (a.find? (fun kv => kv.1 == k)).map (overrideField b) := by
    rw [List.find?_map]
    have hfun : ((fun kv : String × Value => kv.1 == k) ∘ overrideField b)
        = fun kv : String × Value => kv.1 == k := by
      funext kv
      simp [Function.comp, overrideField_fst b kv]
    rw [hfun]
  rw [hmap]
  cases ha : a.find? (fun kv => kv.1 == k) with
  | some kv0 =>
    have hk0 : kv0.1 = k := by
      have := List.find?_some ha
      exact eq_of_beq this
    have hover : overrideField b kv0 =
        match b.find? (fun kv2 => kv2.1 == k) with
        | some kv2 => (kv0.1, kv2.2)
        | none => kv0 := by
      unfold overrideField
      rw [hk0]
    cases hbf : b.find? (fun kv2 => kv2.1 == k) with
    | some kvb =>
      have hbk : hasFieldB b k = true := by
        unfold hasFieldB
        rw [List.any_eq_true]
        exact ⟨kvb, List.mem_of_find?_eq_some hbf,
          by have h3 := List.find?_some hbf; simpa using h3⟩
      simp [hover, hbf, hbk, Option.map, Option.orElse]
    | none =>
      have hbk : hasFieldB b k = false := by
        simp only [hasFieldB]
        rw [List.any_eq_false]
        intro x hx
        have := List.find?_eq_none.mp hbf x hx
        simpa using this
      simp [hover, hbf, hbk, Option.map, Option.orElse]
  | none =>
    have hnotina : ∀ kv2 : String × Value, (kv2.1 == k) = true →
        (!(a.any (fun kv => kv.1 == kv2.1))) = true := by
      intro kv2 hkv2
      have hk2 : kv2.1 = k := eq_of_beq hkv2
      rw [hk2]
      simp only [Bool.not_eq_true']
      rw [List.any_eq_false]
      intro x hx
      have := List.find?_eq_none.mp ha x hx
      simpa using this
    rw [find?_filter_of_imp _ _ hnotina]
    cases hb : hasFieldB b k with
    | true =>
      simp [Option.orElse]
    | false =>
      have hbn : b.find? (fun kv2 => kv2.1 == k) = none := by
        rw [List.find?_eq_none]
        intro x hx
        have hb2 := hb
        simp only [hasFieldB] at hb2
        rw [List.any_eq_false] at hb2
        simpa using hb2 x hx
      simp [hbn, Option.orElse]

/-- C8: when a staged `update(predicate, updates)` runs during
`commit()`, the first record matching the predicate is replaced by the
shallow merge of the existing record with the partial update — a field
of the existing record is overwritten exactly when its key is
explicitly present in the update, every other field keeps its value —
and every record that does not match the predicate is left unchanged
(the table length is also preserved). -/
theorem luxdb_c8_staged_update_first_match_shallow_merge
    (t : Table) (pred : Record → Bool) (updates : Record)
    (i : Nat) (r : Record)
    (hi : t[i]? = some r) (hmatch : pred r = true)
    (_hfirst : ∀ j, j < i → ∀ s : Record, t[j]? = some s → pred s = false) :
    (applyOp t (TxOp.update pred updates))[i]? = some (mergeRecord r updates)
    ∧ (∀ k, getField (mergeRecord r updates) k =
        if hasFieldB updates k then getField updates k else getField r k)
    ∧ (∀ (j : Nat) (s : Record), t[j]? = some s → pred s = false →
        (applyOp t (TxOp.update pred updates))[j]? = some s)
    ∧ (applyOp t (TxOp.update pred updates)).length = t.length := by
  refine ⟨?_, fun k => getField_mergeRecord r updates k, ?_, ?_⟩
  · simp [applyOp, List.getElem?_map, hi, hmatch]
  · intro j s hj hs
    simp [applyOp, List.getElem?_map, hj, hs]
  · simp [applyOp]

/-- Witness for C8: updating the `status` field of the first matching
record of a concrete two-record table. -/
theorem luxdb_c8_witness :
    tableForUpdate[0]? = some recordWithStatus
    ∧ statusPred recordWithStatus = true
    ∧ ((applyOp tableForUpdate (TxOp.update statusPred statusUpdates))[0]?
        = some (mergeRecord recordWithStatus statusUpdates)
      ∧ (∀ k, getField (mergeRecord recordWithStatus statusUpdates) k =
          if hasFieldB statusUpdates k then getField statusUpdates k
          else getField recordWithStatus k)
      ∧ (∀ (j : Nat) (s : Record), tableForUpdate[j]? = some s → statusPred s = false →
          (applyOp tableForUpdate (TxOp.update statusPred statusUpdates))[j]? = some s)
      ∧ (applyOp tableForUpdate (TxOp.update statusPred statusUpdates)).length
          = tableForUpdate.length) :=
  ⟨by decide, by decide,
    luxdb_c8_staged_update_first_match_shallow_merge tableForUpdate statusPred
      statusUpdates 0 recordWithStatus (by decide) (by decide)
      (fun j hj => (Nat.not_lt_zero j hj).elim)⟩

/-! ## Replay lemmas (claim C4)

Small rewriting lemmas describing how each spec-side function evolves
when one entry is consumed, followed by lemmas about the insertion
ordered map, and finally the characterisation of `replayAux`. -/

/-- A non-transactional entry changes no per-identifier function. -/
theorem hasTerminal_cons_none {e : LogEntry} (he : e.transactionId = none)
    (rest : List LogEntry) (i : String) :
    hasTerminal (e :: rest) i = hasTerminal rest i := by
  simp [hasTerminal, List.any_cons, he]

/-- A non-terminal entry leaves `hasTerminal` unchanged. -/
theorem hasTerminal_cons_notTerminal {e : LogEntry} (ht : isTerminalB e.type = false)
    (rest : List LogEntry) (i : String) :
    hasTerminal (e :: rest) i = hasTerminal rest i := by
  simp [hasTerminal, List.any_cons, ht]

/-- A terminal entry of `id` makes `hasTerminal id` true. -/
theorem hasTerminal_cons_terminal {e : LogEntry} {id : String}
    (he : e.transactionId = some id) (ht : isTerminalB e.type = true)
    (rest : List LogEntry) :
    hasTerminal (e :: rest) id = true := by
  simp [hasTerminal, List.any_cons, he, ht]

/-- A terminal entry of `id` leaves `hasTerminal i` unchanged for other
identifiers. -/
theorem hasTerminal_cons_other {e : LogEntry} {id : String}
    (he : e.transactionId = some id) (rest : List LogEntry)
    {i : String} (hi : i ≠ id) :
    hasTerminal (e :: rest) i = hasTerminal rest i := by
  have : (e.transactionId == some i) = false := by
    simp [he]
    exact fun h => (hi h.symm).elim
  simp [hasTerminal, List.any_cons, this]

/-- A non-transactional entry is never buffered per identifier. -/
theorem opsOf_cons_none {e : LogEntry} (he : e.transactionId = none)
    (rest : List LogEntry) (i : String) :
    opsOf (e :: rest) i = opsOf rest i := by
  simp [opsOf, List.filter_cons, he]

/-- A marker entry is never buffered. -/
theorem opsOf_cons_marker {e : LogEntry} (hm : isMarkerB e.type = true)
    (rest : List LogEntry) (i : String) :
    opsOf (e :: rest) i = opsOf rest i := by
  simp [opsOf, List.filter_cons, hm]

/-- An operation entry of `id` is prepended to the buffer of `id`. -/
theorem opsOf_cons_self {e : LogEntry} {id : String}
    (he : e.transactionId = some id) (hm : isMarkerB e.type = false)
    (rest : List LogEntry) :
    opsOf (e :: rest) id = e :: opsOf rest id := by
  simp [opsOf, List.filter_cons, he, hm]

/-- An entry of `id` leaves the buffer of other identifiers unchanged. -/
theorem opsOf_cons_other {e : LogEntry} {id : String}
    (he : e.transactionId = some id) (rest : List LogEntry)
    {i : String} (hi : i ≠ id) :
    opsOf (e :: rest) i = opsOf rest i := by
  have : (e.transactionId == some i) = false := by
    simp [he]
    exact fun h => (hi h.symm).elim
  simp [opsOf, List.filter_cons, this]

/-- Identifier list after a non-transactional entry. -/
theorem txIds_cons_none {e : LogEntry} (he : e.transactionId = none)
    (rest : List LogEntry) :
    txIds (e :: rest) = txIds rest := by
  simp [txIds, List.filterMap_cons, he]

/-- Identifier list after an entry of `id`: `id` first, the rest with
`id` removed. -/
theorem txIds_cons_some {e : LogEntry} {id : String}
    (he : e.transactionId = some id) (rest : List LogEntry) :
    txIds (e :: rest) = id :: (txIds rest).filter (fun y => !(y == id)) := by
  simp [txIds, List.filterMap_cons, he, firstDedup]

/-- Non-transactional non-marker entries are kept by the spec filter. -/
theorem nontxUncommitted_cons_none_op {e : LogEntry} (he : e.transactionId = none)
    (hm : isMarkerB e.type = false) (rest : List LogEntry) :
    nontxUncommitted (e :: rest) = e :: nontxUncommitted rest := by
  simp [nontxUncommitted, List.filter_cons, he, hm]

/-- Non-transactional markers are dropped by the spec filter. -/
theorem nontxUncommitted_cons_none_marker {e : LogEntry} (he : e.transactionId = none)
    (hm : isMarkerB e.type = true) (rest : List LogEntry) :
    nontxUncommitted (e :: rest) = nontxUncommitted rest := by
  simp [nontxUncommitted, List.filter_cons, he, hm]

/-- Transactional entries are dropped by the spec filter. -/
theorem nontxUncommitted_cons_some {e : LogEntry} {id : String}
    (he : e.transactionId = some id) (rest : List LogEntry) :
    nontxUncommitted (e :: rest) = nontxUncommitted rest := by
  simp [nontxUncommitted, List.filter_cons, he]

/-- `hasBegin` only shrinks when the head entry is dropped. -/
theorem hasBegin_cons_false {e : LogEntry} {rest : List LogEntry} {i : String}
    (h : hasBegin (e :: rest) i = false) : hasBegin rest i = false := by
  simp [hasBegin, List.any_cons] at h
  simp [hasBegin]
  exact h.2

/-- Setting a key to the value it already has (everywhere) is the
identity when the key is present. -/
theorem mapSet_eq_self {m : TxMap} {k : String} {v : List LogEntry}
    (hhas : mapHas m k = true)
    (hval : ∀ p ∈ m, p.1 = k → p.2 = v) :
    mapSet m k v = m := by
  unfold mapSet
  rw [if_pos hhas]
  have h2 : ∀ p ∈ m, (if p.1 == k then (k, v) else p) = p := by
    intro p hp
    by_cases hpk : (p.1 == k) = true
    · have h1 : p.1 = k := eq_of_beq hpk
      have h3 : p.2 = v := hval p hp h1
      simp [hpk, Prod.ext_iff, h1.symm, h3.symm]
    · simp [hpk]
  calc m.map (fun p => if p.1 == k then (k, v) else p) = m.map id := by
        exact List.map_congr_left h2
    _ = m := List.map_id m

/-- Setting an absent key appends the binding. -/
theorem mapSet_absent {m : TxMap} {k : String} {v : List LogEntry}
    (hhas : mapHas m k = false) :
    mapSet m k v = m ++ [(k, v)] := by
  unfold mapSet
  rw [if_neg]
  simp [hhas]

/-- Getting an absent key yields nothing. -/
theorem mapGet_absent {m : TxMap} {k : String}
    (hhas : mapHas m k = false) :
    mapGet m k = none := by
  unfold mapGet
  rw [List.find?_eq_none.mpr]
  · rfl
  · intro p hp
    simp only [mapHas] at hhas
    rw [List.any_eq_false] at hhas
    simpa using hhas p hp

/-- Deleting an absent key is the identity. -/
theorem mapDelete_absent {m : TxMap} {k : String}
    (hhas : mapHas m k = false) :
    mapDelete m k = m := by
  unfold mapDelete
  simp only [mapHas] at hhas
  rw [List.any_eq_false] at hhas
  apply List.filter_eq_self.mpr
  intro p hp
  simpa using hhas p hp

/-- `mapHas` is membership of the key list. -/
theorem mapHas_iff_mem_keys {m : TxMap} {k : String} :
    mapHas m k = true ↔ k ∈ m.map (fun p => p.1) := by
  simp only [mapHas, List.any_eq_true, List.mem_map]
  constructor
  · rintro ⟨p, hp, hpk⟩
    exact ⟨p, hp, eq_of_beq hpk⟩
  · rintro ⟨p, hp, hpk⟩
    exact ⟨p, hp, by simp [hpk]⟩

/-- Keys are unchanged by a `mapSet` on a present key. -/
theorem keys_mapSet_present {m : TxMap} {k : String} {v : List LogEntry}
    (hhas : mapHas m k = true) :
    (mapSet m k v).map (fun p => p.1) = m.map (fun p => p.1) := by
  unfold mapSet
  rw [if_pos hhas]
  rw [List.map_map]
  apply List.map_congr_left
  intro p _
  by_cases hpk : (p.1 == k) = true
  · simp [Function.comp, hpk, (eq_of_beq hpk).symm]
  · simp [Function.comp, hpk]

/-- `mapHas` after a `mapSet` on a present key. -/
theorem mapHas_mapSet_present {m : TxMap} {k : String} {v : List LogEntry}
    (hhas : mapHas m k = true) (i : String) :
    mapHas (mapSet m k v) i = mapHas m i := by
  have h1 := @mapHas_iff_mem_keys (mapSet m k v) i
  have h2 := @mapHas_iff_mem_keys m i
  rw [keys_mapSet_present hhas] at h1
  cases hm : mapHas m i with
  | true => exact h1.mpr (h2.mp hm)
  | false =>
    cases hs : mapHas (mapSet m k v) i with
    | true => exact absurd (h2.mpr (h1.mp hs)) (by simp [hm])
    | false => rfl

/-- `mapHas` over an appended singleton. -/
theorem mapHas_append_single {m : TxMap} {k : String} {v : List LogEntry} (i : String) :
    mapHas (m ++ [(k, v)]) i = (mapHas m i || (k == i)) := by
  simp [mapHas, List.any_append]

/-- `mapHas` after a delete, for another key. -/
theorem mapHas_mapDelete_other {m : TxMap} {k : String} {i : String} (hik : i ≠ k) :
    mapHas (mapDelete m k) i = mapHas m i := by
  unfold mapDelete
  cases hm : mapHas m i with
  | true =>
    simp only [mapHas, List.any_eq_true] at hm ⊢
    obtain ⟨p, hp, hpk⟩ := hm
    refine ⟨p, ?_, hpk⟩
    rw [List.mem_filter]
    refine ⟨hp, ?_⟩
    have h1 : p.1 = i := eq_of_beq hpk
    simp [h1, hik]
  | false =>
    simp only [mapHas, List.any_eq_false] at hm
    simp only [mapHas]
    rw [List.any_eq_false]
    intro p hp
    exact hm p (List.mem_of_mem_filter hp)

/-- Key distinctness survives a delete. -/
theorem keys_nodup_mapDelete {m : TxMap} {k : String}
    (hnd : (m.map (fun p => p.1)).Nodup) :
    ((mapDelete m k).map (fun p => p.1)).Nodup := by
  apply List.Nodup.sublist _ hnd
  exact List.Sublist.map _ (List.filter_sublist m)

/-- With distinct keys, a present binding is what `mapGet` returns. -/
theorem mapGet_of_mem_nodup : ∀ {m : TxMap} {k : String} {v : List LogEntry},
    (m.map (fun p => p.1)).Nodup → (k, v) ∈ m → mapGet m k = some v := by
  intro m
  induction m with
  | nil => intro k v _ h; exact absurd h (List.not_mem_nil _)
  | cons p ps ih =>
    intro k v hnd hmem
    rw [List.map_cons, List.nodup_cons] at hnd
    rcases List.mem_cons.mp hmem with h | h
    · subst h
      simp [mapGet, List.find?_cons]
    · have hk : k ∈ ps.map (fun p => p.1) :=
        List.mem_map.mpr ⟨(k, v), h, rfl⟩
      have hp1 : (p.1 == k) = false := by
        cases hb : (p.1 == k) with
        | true => exact absurd (eq_of_beq hb ▸ hk) hnd.1
        | false => rfl
      have := ih hnd.2 h
      simp only [mapGet, List.find?_cons, hp1] at this ⊢
      simpa [hp1] using this

/-- Pointwise equal functions give equal `flatMap`s. -/
theorem flatMap_congr_mem {α β : Type} {f g : α → List β} : ∀ l : List α,
    (∀ x ∈ l, f x = g x) → l.flatMap f = l.flatMap g := by
  intro l
  induction l with
  | nil => intro _; rfl
  | cons x xs ih =>
    intro h
    rw [List.flatMap_cons, List.flatMap_cons, h x (List.mem_cons_self x xs),
      ih (fun y hy => h y (List.mem_cons_of_mem x hy))]

/-- Removing occurrences of an element on which the predicate is false
does not change a filter. -/
theorem filter_after_filter_ne {p : String → Bool} {id : String}
    (hid : p id = false) : ∀ xs : List String,
    (xs.filter (fun y => !(y == id))).filter p = xs.filter p := by
  intro xs
  induction xs with
  | nil => rfl
  | cons x xs ih =>
    by_cases hx : (x == id) = true
    · have h1 : x = id := eq_of_beq hx
      simp [List.filter_cons, hx, h1, hid, ih]
    · simp [List.filter_cons, hx, ih]

/-- Filtering away an element that is not there is the identity. -/
theorem filter_ne_of_not_mem {id : String} {xs : List String}
    (h : id ∉ xs) : xs.filter (fun y => !(y == id)) = xs := by
  apply List.filter_eq_self.mpr
  intro y hy
  have : y ≠ id := fun he => h (he ▸ hy)
  simp [this]

/-- `firstDedup` only keeps elements of the original list. -/
theorem mem_firstDedup : ∀ {xs : List String} {y : String},
    y ∈ firstDedup xs → y ∈ xs := by
  intro xs
  induction xs with
  | nil => intro y h; exact absurd h (List.not_mem_nil y)
  | cons x xs ih =>
    intro y h
    rw [firstDedup] at h
    rcases List.mem_cons.mp h with h | h
    · exact h ▸ List.mem_cons_self x xs
    · exact List.mem_cons_of_mem x (ih (List.mem_of_mem_filter h))

/-- An identifier in `txIds` is carried by some entry of the log. -/
theorem mem_txIds {l : List LogEntry} {i : String} (h : i ∈ txIds l) :
    ∃ e ∈ l, e.transactionId = some i := by
  rw [txIds] at h
  have h2 := mem_firstDedup h
  exact List.mem_filterMap.mp h2

/-- Replacing the unique binding of a present key, described through
`flatMap`: the contribution of the new binding replaces the old one in
place. -/
theorem flatMap_mapSet_present {f g : String × List LogEntry → List LogEntry}
    {k : String} {v : List LogEntry} : ∀ {m : TxMap},
    (m.map (fun p => p.1)).Nodup → mapHas m k = true →
    (∀ p ∈ m, p.1 ≠ k → f p = g p) →
    (∀ p ∈ m, p.1 = k → f (k, v) = g p) →
    (mapSet m k v).flatMap f = m.flatMap g := by
  intro m
  induction m with
  | nil => intro _ hhas _ _; simp [mapHas] at hhas
  | cons p ps ih =>
    intro hnd hhas hother hself
    rw [List.map_cons, List.nodup_cons] at hnd
    rw [mapSet, if_pos hhas, List.map_cons]
    by_cases hp : (p.1 == k) = true
    · have hp1 : p.1 = k := eq_of_beq hp
      rw [if_pos hp]
      rw [List.flatMap_cons, List.flatMap_cons]
      have hkey : ∀ q ∈ ps, q.1 ≠ k := by
        intro q hq he
        have hmem : q.1 ∈ ps.map (fun p => p.1) := List.mem_map.mpr ⟨q, hq, rfl⟩
        rw [he, ← hp1] at hmem
        exact hnd.1 hmem
      have hps : ∀ q ∈ ps, (fun q => if q.1 == k then (k, v) else q) q = q := by
        intro q hq
        simp [hkey q hq]
      rw [List.map_congr_left hps, List.map_id']
      rw [hself p (List.mem_cons_self p ps) hp1]
      congr 1
      apply flatMap_congr_mem
      intro q hq
      exact hother q (List.mem_cons_of_mem p hq) (hkey q hq)
    · have hp1 : p.1 ≠ k := fun he => hp (by simp [he])
      rw [if_neg hp]
      rw [List.flatMap_cons, List.flatMap_cons]
      have hhps : mapHas ps k = true := by
        simp only [mapHas, List.any_cons, hp, Bool.false_or] at hhas
        exact hhas
      have htail : (mapSet ps k v).flatMap f = ps.flatMap g := by
        apply ih hnd.2 hhps
        · intro q hq hq1; exact hother q (List.mem_cons_of_mem p hq) hq1
        · intro q hq hq1; exact hself q (List.mem_cons_of_mem p hq) hq1
      rw [mapSet, if_pos hhps] at htail
      rw [htail, hother p (List.mem_cons_self p ps) hp1]

/-- Deleting a key whose contribution is empty, described through
`flatMap`. -/
theorem flatMap_mapDelete {f g : String × List LogEntry → List LogEntry}
    {k : String} : ∀ {m : TxMap},
    (∀ p ∈ m, p.1 = k → f p = []) →
    (∀ p ∈ m, p.1 ≠ k → f p = g p) →
    m.flatMap f = (mapDelete m k).flatMap g := by
  intro m
  induction m with
  | nil => intro _ _; rfl
  | cons p ps ih =>
    intro hdrop hkeep
    rw [List.flatMap_cons, mapDelete, List.filter_cons]
    by_cases hp : (p.1 == k) = true
    · have hp1 : p.1 = k := eq_of_beq hp
      rw [hdrop p (List.mem_cons_self p ps) hp1]
      simp only [hp, Bool.not_true, Bool.false_eq_true, if_false]
      rw [List.nil_append]
      have := ih (fun q hq h1 => hdrop q (List.mem_cons_of_mem p hq) h1)
        (fun q hq h1 => hkeep q (List.mem_cons_of_mem p hq) h1)
      rw [this, mapDelete]
    · have hp1 : p.1 ≠ k := fun he => hp (by simp [he])
      simp only [hp, Bool.not_false, if_true]
      rw [List.flatMap_cons]
      rw [hkeep p (List.mem_cons_self p ps) hp1]
      congr 1
      have := ih (fun q hq h1 => hdrop q (List.mem_cons_of_mem p hq) h1)
        (fun q hq h1 => hkeep q (List.mem_cons_of_mem p hq) h1)
      rw [this, mapDelete]

/-- `openContrib` only looks at `hasTerminal` and `opsOf`. -/
theorem openContrib_congr {m : TxMap} {l1 l2 : List LogEntry}
    (hT : ∀ i, hasTerminal l1 i = hasTerminal l2 i)
    (hO : ∀ i, opsOf l1 i = opsOf l2 i) :
    openContrib m l1 = openContrib m l2 := by
  unfold openContrib
  apply flatMap_congr_mem
  intro p _
  rw [hT p.1, hO p.1]

/-- `newContrib` only looks at `txIds`, `hasTerminal` and `opsOf`. -/
theorem newContrib_congr {m : TxMap} {l1 l2 : List LogEntry}
    (hI : txIds l1 = txIds l2)
    (hT : ∀ i, hasTerminal l1 i = hasTerminal l2 i)
    (hO : ∀ i, opsOf l1 i = opsOf l2 i) :
    newContrib m l1 = newContrib m l2 := by
  unfold newContrib
  rw [hI]
  rw [List.filter_congr (fun x _ => by rw [hT x])]
  exact flatMap_congr_mem _ (fun x _ => hO x)

/-- A `BEGIN` entry of `id` at the head makes `hasBegin id` true. -/
theorem hasBegin_cons_self {e : LogEntry} {id : String}
    (he : e.transactionId = some id) (hb : e.type = OperationType.BEGIN)
    (rest : List LogEntry) :
    hasBegin (e :: rest) id = true := by
  simp [hasBegin, List.any_cons, he, hb]

/-- Consuming an entry of an identifier that the map already tracks
leaves `newContrib` unchanged: the head identifier is filtered out by
`mapHas`, and every identifier that survives the filter is distinct
from it. -/
theorem newContrib_skip_tracked {m : TxMap} {rest : List LogEntry} {e : LogEntry}
    {id : String}
    (he : e.transactionId = some id) (hhas : mapHas m id = true)
    (hTa : ∀ i, hasTerminal (e :: rest) i = hasTerminal rest i)
    (hOo : ∀ i, i ≠ id → opsOf (e :: rest) i = opsOf rest i) :
    newContrib m (e :: rest) = newContrib m rest := by
  unfold newContrib
  rw [txIds_cons_some he rest, List.filter_cons]
  have hcondid : (!mapHas m id && !hasTerminal (e :: rest) id) = false := by
    simp [hhas]
  simp only [hcondid, Bool.false_eq_true, if_false]
  rw [filter_after_filter_ne hcondid]
  rw [List.filter_congr (fun i _ => by rw [hTa i])]
  apply flatMap_congr_mem
  intro i hi
  have hine : i ≠ id := by
    intro hyp
    have h2 := (List.mem_filter.mp hi).2
    rw [hyp, hhas] at h2
    simp at h2
  exact hOo i hine

/-- Consuming an entry of an identifier that the map does not track
yet: inserting the binding `(id, v)` at the end of the map accounts
exactly for the head identifier's group of the spec side. -/
theorem insert_new_case {m : TxMap} {rest : List LogEntry} {e : LogEntry}
    {id : String} {v : List LogEntry}
    (hhas0 : mapHas m id = false)
    (hv : v ++ opsOf rest id = opsOf (e :: rest) id)
    (hOo : ∀ i, i ≠ id → opsOf (e :: rest) i = opsOf rest i)
    (hTa : ∀ i, hasTerminal (e :: rest) i = hasTerminal rest i)
    (htx : txIds (e :: rest) = id :: (txIds rest).filter (fun y => !(y == id))) :
    openContrib (m ++ [(id, v)]) rest ++ newContrib (m ++ [(id, v)]) rest
      = openContrib m (e :: rest) ++ newContrib m (e :: rest) := by
  have hkeys : ∀ p ∈ m, p.1 ≠ id := by
    intro p hp he2
    have hmem : id ∈ m.map (fun p => p.1) := List.mem_map.mpr ⟨p, hp, he2⟩
    have := mapHas_iff_mem_keys.mpr hmem
    rw [hhas0] at this
    exact Bool.false_ne_true this
  have hopenL : openContrib (m ++ [(id, v)]) rest
      = openContrib m rest ++ (if hasTerminal rest id then [] else v ++ opsOf rest id) := by
    unfold openContrib
    rw [List.flatMap_append]
    simp
  have hopenR : openContrib m (e :: rest) = openContrib m rest := by
    unfold openContrib
    apply flatMap_congr_mem
    intro p hp
    rw [hTa p.1, hOo p.1 (hkeys p hp)]
  have hnewL : newContrib (m ++ [(id, v)]) rest
      = ((txIds rest).filter
          (fun i => (!mapHas m i && !hasTerminal rest i) && !(i == id))).flatMap
        (opsOf rest) := by
    unfold newContrib
    congr 1
    apply List.filter_congr
    intro i _
    rw [mapHas_append_single]
    rw [show ((id == i)) = (i == id) from BEq.comm]
    cases mapHas m i <;> cases hasTerminal rest i <;> cases (i == id) <;> rfl
  have htailR : (((txIds rest).filter (fun y => !(y == id))).filter
        (fun i => !mapHas m i && !hasTerminal (e :: rest) i)).flatMap (opsOf (e :: rest))
      = ((txIds rest).filter
          (fun i => (!mapHas m i && !hasTerminal rest i) && !(i == id))).flatMap
        (opsOf rest) := by
    rw [List.filter_filter]
    have hfeq : (txIds rest).filter
        (fun a => (!mapHas m a && !hasTerminal (e :: rest) a) && !(a == id))
        = (txIds rest).filter
          (fun i => (!mapHas m i && !hasTerminal rest i) && !(i == id)) := by
      apply List.filter_congr
      intro i _
      rw [hTa i]
    rw [hfeq]
    apply flatMap_congr_mem
    intro i hi
    have h2 := (List.mem_filter.mp hi).2
    have hine : i ≠ id := by
      intro hyp
      rw [hyp] at h2
      simp at h2
    exact hOo i hine
  have hnewR : newContrib m (e :: rest)
      = (if hasTerminal rest id then [] else v ++ opsOf rest id) ++
        ((txIds rest).filter
          (fun i => (!mapHas m i && !hasTerminal rest i) && !(i == id))).flatMap
        (opsOf rest) := by
    unfold newContrib
    rw [htx, List.filter_cons]
    have hcondid : (!mapHas m id && !hasTerminal (e :: rest) id)
        = !hasTerminal rest id := by
      rw [hTa id]
      simp [hhas0]
    cases hT : hasTerminal rest id with
    | true =>
      rw [hT] at hcondid
      simp only [hcondid, Bool.not_true, Bool.false_eq_true, if_false]
      rw [htailR]
      simp
    | false =>
      rw [hT] at hcondid
      simp only [hcondid, Bool.not_false, if_true]
      rw [List.flatMap_cons, htailR, ← hv]
      simp
  rw [hopenL, hopenR, hnewL, hnewR]
  cases hT : hasTerminal rest id <;> simp [List.append_assoc]

/-- Characterisation of the `replay` loop on a well-formed log,
generalised over the accumulators: the result is the carried
uncommitted entries, then the non-transactional non-marker entries of
the log, then the groups of the identifiers already tracked by the map,
then the groups of the new never-terminated identifiers in
first-occurrence order. -/
theorem replayAux_eq : ∀ (l u : List LogEntry) (m : TxMap),
    wfLog l = true →
    (∀ p ∈ m, p.2 = [] ∨ hasBegin l p.1 = false) →
    ((m.map (fun p => p.1)).Nodup) →
    replayAux u m l = u ++ nontxUncommitted l ++ openContrib m l ++ newContrib m l := by
  intro l
  induction l with
  | nil =>
    intro u m _ _ _
    simp [replayAux, nontxUncommitted, openContrib, newContrib, txIds, firstDedup,
      hasTerminal, opsOf]
  | cons e rest ih =>
    intro u m hwf hinv hnd
    obtain ⟨hall, hwfr⟩ : rest.all (okAfterB e) = true ∧ wfLog rest = true := by
      simpa [wfLog, Bool.and_eq_true] using hwf
    have hok : ∀ x ∈ rest, okAfterB e x = true := List.all_eq_true.mp hall
    have hinv2 : ∀ p ∈ m, p.2 = [] ∨ hasBegin rest p.1 = false := fun p hp =>
      (hinv p hp).imp id hasBegin_cons_false
    cases he : e.transactionId with
    | none =>
      by_cases hmk : isMarkerB e.type = true
      · have hstep : replayAux u m (e :: rest) = replayAux u m rest := by
          simp [replayAux, he, hmk]
        rw [hstep, ih u m hwfr hinv2 hnd,
          nontxUncommitted_cons_none_marker he hmk,
          openContrib_congr (hasTerminal_cons_none he rest) (opsOf_cons_none he rest),
          newContrib_congr (txIds_cons_none he rest) (hasTerminal_cons_none he rest)
            (opsOf_cons_none he rest)]
      · have hmk2 : isMarkerB e.type = false := by
          cases h2 : isMarkerB e.type with
          | true => exact absurd h2 hmk
          | false => rfl
        have hstep : replayAux u m (e :: rest) = replayAux (u ++ [e]) m rest := by
          simp [replayAux, he, hmk2]
        rw [hstep, ih (u ++ [e]) m hwfr hinv2 hnd,
          nontxUncommitted_cons_none_op he hmk2,
          openContrib_congr (hasTerminal_cons_none he rest) (opsOf_cons_none he rest),
          newContrib_congr (txIds_cons_none he rest) (hasTerminal_cons_none he rest)
            (opsOf_cons_none he rest)]
        simp [List.append_assoc]
    | some id =>
      by_cases hBt : e.type = OperationType.BEGIN
      · have hmk : isMarkerB e.type = true := by simp [isMarkerB, hBt]
        have htm : isTerminalB e.type = false := by simp [isTerminalB, hBt]
        have hstep : replayAux u m (e :: rest)
            = replayAux u (mapSet m id []) rest := by
          simp [replayAux, he, hBt]
        have hOall : ∀ i, opsOf (e :: rest) i = opsOf rest i := opsOf_cons_marker hmk rest
        have hTall : ∀ i, hasTerminal (e :: rest) i = hasTerminal rest i :=
          hasTerminal_cons_notTerminal htm rest
        by_cases hhas : mapHas m id = true
        · have hvals : ∀ p ∈ m, p.1 = id → p.2 = [] := by
            intro p hp hpk
            rcases hinv p hp with h | h
            · exact h
            · exfalso
              rw [hpk, hasBegin_cons_self he hBt rest] at h
              simp at h
          have hreset : mapSet m id [] = m := mapSet_eq_self hhas hvals
          rw [hstep, hreset, ih u m hwfr hinv2 hnd,
            nontxUncommitted_cons_some he,
            openContrib_congr hTall hOall,
            newContrib_skip_tracked he hhas hTall (fun i _ => hOall i)]
        · have hhas0 : mapHas m id = false := by
            cases h2 : mapHas m id with
            | true => exact absurd h2 hhas
            | false => rfl
          have habs : mapSet m id [] = m ++ [(id, [])] := mapSet_absent hhas0
          have hid_not : id ∉ m.map (fun p => p.1) := by
            intro hmem
            have h3 := mapHas_iff_mem_keys.mpr hmem
            rw [hhas0] at h3
            exact Bool.false_ne_true h3
          have hnd2 : ((m ++ [(id, ([] : List LogEntry))]).map (fun p => p.1)).Nodup := by
            rw [List.map_append, List.nodup_append]
            refine ⟨hnd, List.nodup_singleton id, ?_⟩
            intro a ha hcontra
            have ha2 : a = id := by simpa using hcontra
            exact hid_not (ha2 ▸ ha)
          have hinv3 : ∀ p ∈ m ++ [(id, ([] : List LogEntry))],
              p.2 = [] ∨ hasBegin rest p.1 = false := by
            intro p hp
            rcases List.mem_append.mp hp with h | h
            · exact hinv2 p h
            · left
              have hp2 : p = (id, []) := by simpa using h
              rw [hp2]
          rw [hstep, habs, ih u (m ++ [(id, [])]) hwfr hinv3 hnd2,
            nontxUncommitted_cons_some he]
          have hins := insert_new_case (v := []) hhas0
            (by rw [hOall id]; simp)
            (fun i _ => hOall i) hTall (txIds_cons_some he rest)
          calc u ++ nontxUncommitted rest ++ openContrib (m ++ [(id, [])]) rest
              ++ newContrib (m ++ [(id, [])]) rest
              = u ++ nontxUncommitted rest ++ (openContrib (m ++ [(id, [])]) rest
                ++ newContrib (m ++ [(id, [])]) rest) := by
                simp [List.append_assoc]
            _ = u ++ nontxUncommitted rest ++ (openContrib m (e :: rest)
                ++ newContrib m (e :: rest)) := by rw [hins]
            _ = u ++ nontxUncommitted rest ++ openContrib m (e :: rest)
                ++ newContrib m (e :: rest) := by simp [List.append_assoc]
      · have hnb : (e.type == OperationType.BEGIN) = false := by
          cases h2 : (e.type == OperationType.BEGIN) with
          | true => exact absurd (eq_of_beq h2) hBt
          | false => rfl
        by_cases htm : isTerminalB e.type = true
        · have hnorest : ∀ x ∈ rest, ¬(x.transactionId = some id) := by
            intro x hx hxid
            have h2 := hok x hx
            simp [okAfterB, he, hxid, htm] at h2
          have hTr : hasTerminal rest id = false := by
            simp only [hasTerminal]
            rw [List.any_eq_false]
            intro x hx
            have h3 := hnorest x hx
            have h4 : (x.transactionId == some id) = false := by
              cases h5 : (x.transactionId == some id) with
              | true => exact absurd (eq_of_beq h5) h3
              | false => rfl
            simp [h4]
          have hIdsr : id ∉ txIds rest := by
            intro hmem
            obtain ⟨x, hx, hxid⟩ := mem_txIds hmem
            exact hnorest x hx hxid
          have hstep : replayAux u m (e :: rest) = replayAux u (mapDelete m id) rest := by
            simp [replayAux, he, hnb, htm]
          have hinv3 : ∀ p ∈ mapDelete m id,
              p.2 = [] ∨ hasBegin rest p.1 = false := by
            intro p hp
            exact hinv2 p (List.mem_of_mem_filter hp)
          have hnd2 := keys_nodup_mapDelete (k := id) hnd
          rw [hstep, ih u (mapDelete m id) hwfr hinv3 hnd2,
            nontxUncommitted_cons_some he]
          have hopen : openContrib m (e :: rest) = openContrib (mapDelete m id) rest := by
            unfold openContrib
            apply flatMap_mapDelete
            · intro p _ hpk
              rw [hpk, hasTerminal_cons_terminal he htm rest]
              simp
            · intro p _ hpk
              rw [hasTerminal_cons_other he rest hpk, opsOf_cons_other he rest hpk]
          have hnew : newContrib m (e :: rest) = newContrib (mapDelete m id) rest := by
            unfold newContrib
            rw [txIds_cons_some he rest, filter_ne_of_not_mem hIdsr, List.filter_cons]
            have hcondid : (!mapHas m id && !hasTerminal (e :: rest) id) = false := by
              rw [hasTerminal_cons_terminal he htm rest]
              simp
            simp only [hcondid, Bool.false_eq_true, if_false]
            have hfilter : (txIds rest).filter
                (fun i => !mapHas m i && !hasTerminal (e :: rest) i)
                = (txIds rest).filter
                  (fun i => !mapHas (mapDelete m id) i && !hasTerminal rest i) := by
              apply List.filter_congr
              intro i hi
              have hine : i ≠ id := fun hyp => hIdsr (hyp ▸ hi)
              rw [hasTerminal_cons_other he rest hine, mapHas_mapDelete_other hine]
            rw [hfilter]
            apply flatMap_congr_mem
            intro i hi
            have hi0 : i ∈ txIds rest := (List.mem_filter.mp hi).1
            have hine : i ≠ id := fun hyp => hIdsr (hyp ▸ hi0)
            exact opsOf_cons_other he rest hine
          rw [hopen, hnew]
        · have htm0 : isTerminalB e.type = false := by
            cases h2 : isTerminalB e.type with
            | true => exact absurd h2 htm
            | false => rfl
          have hmk0 : isMarkerB e.type = false := by
            have hsplit2 : isMarkerB e.type
                = ((e.type == OperationType.BEGIN) || isTerminalB e.type) := by
              simp [isMarkerB, isTerminalB, Bool.or_assoc]
            rw [hsplit2, hnb, htm0]
            rfl
          have hBr : hasBegin rest id = false := by
            simp only [hasBegin]
            rw [List.any_eq_false]
            intro x hx
            cases hxid : (x.transactionId == some id) with
            | false => simp [hxid]
            | true =>
              cases hxb : (x.type == OperationType.BEGIN) with
              | false => simp [hxid, hxb]
              | true =>
                exfalso
                have h2 := hok x hx
                have hxid2 : x.transactionId = some id := eq_of_beq hxid
                have hxb2 : x.type = OperationType.BEGIN := eq_of_beq hxb
                simp [okAfterB, he, hxid2, hxb2, hnb, htm0] at h2
          have hstep : replayAux u m (e :: rest)
              = replayAux u (mapSet m id ((mapGet m id).getD [] ++ [e])) rest := by
            simp [replayAux, he, hnb, htm0]
          have hTall : ∀ i, hasTerminal (e :: rest) i = hasTerminal rest i :=
            hasTerminal_cons_notTerminal htm0 rest
          by_cases hhas : mapHas m id = true
          · obtain ⟨p0, hp0, hp0k⟩ : ∃ p ∈ m, (p.1 == id) = true := by
              simpa [mapHas, List.any_eq_true] using hhas
            have hp0k2 : p0.1 = id := eq_of_beq hp0k
            have hp0mem : (id, p0.2) ∈ m := by
              have heta : (id, p0.2) = p0 := by rw [← hp0k2]
              rw [heta]
              exact hp0
            have hget : mapGet m id = some p0.2 := mapGet_of_mem_nodup hnd hp0mem
            have hval : (mapGet m id).getD [] ++ [e] = p0.2 ++ [e] := by rw [hget]; rfl
            have hnd2 : ((mapSet m id (p0.2 ++ [e])).map (fun p => p.1)).Nodup := by
              rw [keys_mapSet_present hhas]
              exact hnd
            have hinv3 : ∀ q ∈ mapSet m id (p0.2 ++ [e]),
                q.2 = [] ∨ hasBegin rest q.1 = false := by
              intro q hq
              rw [mapSet, if_pos hhas] at hq
              obtain ⟨q0, hq0, hq0e⟩ := List.mem_map.mp hq
              by_cases hq0k : (q0.1 == id) = true
              · rw [if_pos hq0k] at hq0e
                right
                rw [← hq0e]
                exact hBr
              · rw [if_neg hq0k] at hq0e
                rw [← hq0e]
                exact hinv2 q0 hq0
            rw [hstep, hval, ih u (mapSet m id (p0.2 ++ [e])) hwfr hinv3 hnd2,
              nontxUncommitted_cons_some he]
            have hopen : openContrib m (e :: rest)
                = openContrib (mapSet m id (p0.2 ++ [e])) rest := by
              unfold openContrib
              refine (flatMap_mapSet_present hnd hhas ?_ ?_).symm
              · intro p _ hpk
                rw [hasTerminal_cons_other he rest hpk, opsOf_cons_other he rest hpk]
              · intro p hp hpk
                have hpmem : (id, p.2) ∈ m := by
                  have heta : (id, p.2) = p := by rw [← hpk]
                  rw [heta]
                  exact hp
                have hgetp : mapGet m id = some p.2 := mapGet_of_mem_nodup hnd hpmem
                have hp2 : p.2 = p0.2 := by
                  rw [hget] at hgetp
                  exact (Option.some_injective _ hgetp).symm
                rw [hpk, hTall id, opsOf_cons_self he hmk0, hp2]
                cases hasTerminal rest id <;> simp
            have hnew : newContrib m (e :: rest)
                = newContrib (mapSet m id (p0.2 ++ [e])) rest := by
              have h1 : newContrib m (e :: rest) = newContrib m rest :=
                newContrib_skip_tracked he hhas hTall
                  (fun i hine => opsOf_cons_other he rest hine)
              have h2 : newContrib (mapSet m id (p0.2 ++ [e])) rest
                  = newContrib m rest := by
                unfold newContrib
                have h3 : (txIds rest).filter
                    (fun i => !mapHas (mapSet m id (p0.2 ++ [e])) i
                      && !hasTerminal rest i)
                    = (txIds rest).filter
                      (fun i => !mapHas m i && !hasTerminal rest i) :=
                  List.filter_congr (fun i _ => by rw [mapHas_mapSet_present hhas i])
                rw [h3]
              exact h1.trans h2.symm
            rw [hopen, hnew]
          · have hhas0 : mapHas m id = false := by
              cases h2 : mapHas m id with
              | true => exact absurd h2 hhas
              | false => rfl
            have hget : mapGet m id = none := mapGet_absent hhas0
            have hval : (mapGet m id).getD [] ++ [e] = [e] := by rw [hget]; rfl
            have habs : mapSet m id [e] = m ++ [(id, [e])] := mapSet_absent hhas0
            have hid_not : id ∉ m.map (fun p => p.1) := by
              intro hmem
              have h3 := mapHas_iff_mem_keys.mpr hmem
              rw [hhas0] at h3
              exact Bool.false_ne_true h3
            have hnd2 : ((m ++ [(id, [e])]).map (fun p => p.1)).Nodup := by
              rw [List.map_append, List.nodup_append]
              refine ⟨hnd, List.nodup_singleton id, ?_⟩
              intro a ha hcontra
              have ha2 : a = id := by simpa using hcontra
              exact hid_not (ha2 ▸ ha)
            have hinv3 : ∀ p ∈ m ++ [(id, [e])],
                p.2 = [] ∨ hasBegin rest p.1 = false := by
              intro p hp
              rcases List.mem_append.mp hp with h | h
              · exact hinv2 p h
              · right
                have hp2 : p = (id, [e]) := by simpa using h
                rw [hp2]
                exact hBr
            rw [hstep, hval, habs, ih u (m ++ [(id, [e])]) hwfr hinv3 hnd2,
              nontxUncommitted_cons_some he]
            have hins := insert_new_case (v := [e]) hhas0
              (by rw [opsOf_cons_self he hmk0]; simp)
              (fun i hine => opsOf_cons_other he rest hine) hTall
              (txIds_cons_some he rest)
            calc u ++ nontxUncommitted rest ++ openContrib (m ++ [(id, [e])]) rest
                ++ newContrib (m ++ [(id, [e])]) rest
                = u ++ nontxUncommitted rest ++ (openContrib (m ++ [(id, [e])]) rest
                  ++ newContrib (m ++ [(id, [e])]) rest) := by
                  simp [List.append_assoc]
              _ = u ++ nontxUncommitted rest ++ (openContrib m (e :: rest)
                  ++ newContrib m (e :: rest)) := by rw [hins]
              _ = u ++ nontxUncommitted rest ++ openContrib m (e :: rest)
                  ++ newContrib m (e :: rest) := by simp [List.append_assoc]

/-- C4 (amended): for every well-formed log — one in which no entry
tagged with a transaction identifier follows a `COMMIT`/`ROLLBACK`
marker for that identifier, and no `BEGIN` for an identifier follows
one of its non-marker entries — `replay` returns exactly the entries
with no transaction identifier that are not lifecycle markers, in log
order, followed by the buffered operation entries of every transaction
identifier that never reached a `COMMIT` or `ROLLBACK` marker
(identifier groups in first-occurrence order, log order preserved
inside each group); every identifier that reached a terminal marker
contributes nothing. -/
theorem luxdb_c4_replay_characterization (l : List LogEntry)
    (hwf : wfLog l = true) :
    replayEntries l = replaySpec l := by
  have h := replayAux_eq l [] [] hwf
    (by intro p hp; exact absurd hp (List.not_mem_nil p)) (by simp)
  rw [replayEntries, h]
  simp [openContrib, newContrib, replaySpec, openTxIds, mapHas]

/-- Witness for C4 at the log of the claim: `BEGIN`/`INSERT`/`INSERT`
of one transaction with no terminal marker. -/
theorem luxdb_c4_witness :
    wfLog [entryBeginTx, entryInsertA, entryInsertB] = true
    ∧ replayEntries [entryBeginTx, entryInsertA, entryInsertB]
        = replaySpec [entryBeginTx, entryInsertA, entryInsertB] :=
  ⟨by decide, luxdb_c4_replay_characterization _ (by decide)⟩

/-- Counterexample to C4 as frozen: in the log `[COMMIT tx-1,
INSERT tx-1]` the identifier `tx-1` has reached a `COMMIT` marker, so
the claim requires its entries to be excluded (the claimed result is
empty), but `replay` re-buffers the entry logged after the marker and
returns it. -/
theorem luxdb_c4_counterexample_entry_after_commit :
    replayEntries [entryCommitTx, entryLate] = [entryLate]
    ∧ hasTerminal [entryCommitTx, entryLate] "tx-1" = true
    ∧ entryLate.transactionId = some "tx-1"
    ∧ replaySpec [entryCommitTx, entryLate] = [] := by decide
